import Mathlib

/-!
Shallow embedding of the kilo-style terminal text viewer (src/main.rs) and
proofs about its specification.  Machine integers (`usize`) are modelled as
`Nat`; Rust's checked subtraction sites are translated at points where the
source guarantees no underflow, and the one potentially-underflowing
subtraction (welcome-banner padding) is analysed explicitly.
-/

namespace Kilo

/-! ## Terminal attributes (termios) and raw mode

`Termios` models the fields of the POSIX termios structure that
`enable_raw_mode` touches.  Flag words are natural numbers holding the usual
Linux bit values; `control_chars[VMIN]` and `control_chars[VTIME]` are the
`vmin`/`vtime` fields. -/

structure Termios where
  input_flags : Nat
  output_flags : Nat
  control_flags : Nat
  local_flags : Nat
  vmin : Nat
  vtime : Nat
deriving DecidableEq, Repr

def BRKINT : Nat := 0x002
def ICRNL : Nat := 0x100
def INPCK : Nat := 0x010
def ISTRIP : Nat := 0x020
def IXON : Nat := 0x400
def OPOST : Nat := 0x001
def ECHO : Nat := 0x008
def ICANON : Nat := 0x002
def IEXTEN : Nat := 0x8000
def ISIG : Nat := 0x001
def CS8 : Nat := 0x030

/-- Clear the bits of `mask` in `x` (the Rust `x &= !mask`). -/
def clearBits (x mask : Nat) : Nat := x - (x &&& mask)

/-- The modified termios that `enable_raw_mode` derives from the original
and applies with `tcsetattr` (src/main.rs, `Editor::enable_raw_mode`). -/
def rawTermios (t : Termios) : Termios :=
  { input_flags := clearBits t.input_flags (BRKINT ||| ICRNL ||| INPCK ||| ISTRIP ||| IXON)
    output_flags := clearBits t.output_flags OPOST
    control_flags := t.control_flags ||| CS8
    local_flags := clearBits t.local_flags (ECHO ||| ICANON ||| IEXTEN ||| ISIG)
    vmin := 0
    vtime := 1 }

/-! ## Control-flow model of `main` / `Editor::run`

The trace abstraction keeps exactly the fallible steps of `main` and `run`
that decide which `tcsetattr` calls happen.  `run` is
`enable_raw_mode()? ; (editor_open)? ; loop { editor_refresh_screen()? ;
editor_process_keypress()? }`; the loop body never calls `tcsetattr`, so only
the way the loop ends matters. -/

inductive LoopEnd where
  /-- `editor_process_keypress` decoded Ctrl-Q and returned `Ok(false)`. -/
  | quit
  /-- `editor_refresh_screen` failed inside the loop (render I/O failure). -/
  | refreshErr
  /-- `editor_read_key` failed inside the loop (read I/O failure). -/
  | readErr
deriving DecidableEq, Repr

structure MainEnv where
  /-- `Editor::new()` (tcgetattr + window size query) succeeded. -/
  newOk : Bool
  /-- the `tcsetattr` inside `enable_raw_mode` succeeded. -/
  enableOk : Bool
  /-- a file path argument was supplied. -/
  hasFileArg : Bool
  /-- `editor_open` succeeded (only relevant when `hasFileArg`). -/
  loadOk : Bool
  /-- how the `run` loop ended. -/
  loopEnd : LoopEnd
  /-- the `editor_refresh_screen()?` in `main`, after `run` returned, succeeded. -/
  finalRefreshOk : Bool
deriving DecidableEq, Repr

/-- The successful `tcsetattr` calls made by `Editor::run`, in order, together
with whether `run` returned `Ok` (src/main.rs, `Editor::run`). -/
def runTcsets (env : MainEnv) (orig : Termios) : List Termios × Bool :=
  if env.enableOk then
    let sets := [rawTermios orig]
    if env.hasFileArg && !env.loadOk then (sets, false)
    else
      match env.loopEnd with
      | LoopEnd.quit => (sets, true)
      | LoopEnd.refreshErr => (sets, false)
      | LoopEnd.readErr => (sets, false)
  else ([], false)

/-- The `tcsetattr` calls made by the whole process (src/main.rs, `main`):
after `run` returns (its error, if any, is printed), `main` executes
`editor.editor_refresh_screen()?` and only then
`editor.disable_raw_mode()?`, which applies `orig_termios`.  A failing final
refresh makes `main` return early through `?`. -/
def mainTcsets (env : MainEnv) (orig : Termios) : List Termios :=
  if env.newOk then
    let r := runTcsets env orig
    if env.finalRefreshOk then r.1 ++ [orig] else r.1
  else []

/-- Raw mode was actually entered: `Editor::new` succeeded and the
`tcsetattr` inside `enable_raw_mode` took effect. -/
def rawModeEntered (env : MainEnv) : Bool := env.newOk && env.enableOk

/-! ## The editor state and the rope -/

/-- The rope is modelled by its character content. -/
abbrev RopeText := List Char

/-- The lines of the rope, with the terminating newline of each line already
stripped; matches ropey's line decomposition followed by `trim_newline`
(an empty text has one empty line, a trailing newline yields a final empty
line). -/
def ropeLines : RopeText → List (List Char)
  | [] => [[]]
  | c :: rest =>
    if c = '\n' then [] :: ropeLines rest
    else
      match ropeLines rest with
      | [] => [[c]]
      | l :: ls => (c :: l) :: ls

/-- `Rope::len_lines`. -/
def len_lines (r : RopeText) : Nat := (ropeLines r).length

/-- `Rope::len_chars`. -/
def len_chars (r : RopeText) : Nat := r.length

/-- `Editor::get_row`: `trim_newline(self.rope.line(row))`. -/
def get_row (r : RopeText) (row : Nat) : List Char := (ropeLines r).getD row []

/-- `Editor::row_len`. -/
def row_len (r : RopeText) (row : Nat) : Nat :=
  if row < len_lines r then (get_row r row).length else 0

structure EditorState where
  screen_rows : Nat
  screen_cols : Nat
  cursor_row : Nat
  cursor_col : Nat
  row_offset : Nat
  col_offset : Nat
  rope : RopeText
deriving DecidableEq, Repr

/-- `Editor::current_row_len`. -/
def EditorState.current_row_len (s : EditorState) : Nat := row_len s.rope s.cursor_row

/-! ## Keys -/

inductive EditorKey where
  | ArrowLeft
  | ArrowRight
  | ArrowUp
  | ArrowDown
  | PageUp
  | PageDown
  | Home
  | End
  | Delete
  | Other (c : Char)
deriving DecidableEq, Repr

/-! ## Scrolling (`Editor::editor_scroll`) -/

/-- One axis of `editor_scroll`: the source updates the offset with two
sequential `if`s, the second reading the value possibly written by the
first.  `cursor` is the cursor coordinate, `offset` the current scroll
offset, `extent` the screen extent on that axis. -/
def scrollOffset (cursor offset extent : Nat) : Nat :=
  let offset := if cursor < offset then cursor else offset
  if cursor ≥ offset + extent then cursor - extent + 1 else offset

def editor_scroll (s : EditorState) : EditorState :=
  { s with
    row_offset := scrollOffset s.cursor_row s.row_offset s.screen_rows
    col_offset := scrollOffset s.cursor_col s.col_offset s.screen_cols }

/-! ## Cursor movement (`Editor::editor_move_cursor`) -/

def editor_move_cursor (s : EditorState) (key : EditorKey) : EditorState :=
  let s1 :=
    match key with
    | EditorKey.ArrowLeft =>
      if s.cursor_col > 0 then { s with cursor_col := s.cursor_col - 1 }
      else if s.cursor_row > 0 then
        let s2 := { s with cursor_row := s.cursor_row - 1 }
        { s2 with cursor_col := s2.current_row_len }
      else s
    | EditorKey.ArrowRight =>
      if s.cursor_col < s.current_row_len then { s with cursor_col := s.cursor_col + 1 }
      else if s.cursor_row < max (len_lines s.rope) s.screen_rows - 1 then
        { s with cursor_row := s.cursor_row + 1, cursor_col := 0 }
      else s
    | EditorKey.ArrowUp =>
      if s.cursor_row > 0 then { s with cursor_row := s.cursor_row - 1 } else s
    | EditorKey.ArrowDown =>
      if s.cursor_row < max (len_lines s.rope) s.screen_rows - 1 then
        { s with cursor_row := s.cursor_row + 1 }
      else s
    | EditorKey.PageUp => { s with cursor_row := 0 }
    | EditorKey.PageDown => { s with cursor_row := s.screen_rows }
    | EditorKey.Home => { s with cursor_col := 0 }
    | EditorKey.End => { s with cursor_col := s.screen_cols }
    | _ => s
  let rl := s1.current_row_len
  if s1.cursor_col > rl then { s1 with cursor_col := rl } else s1

/-! ## Tab expansion (`Editor::editor_update_row`)

The source scans a row's characters in place: at a tab it removes the tab,
inserts `" ".repeat(TAB_SIZE)` and advances the index by 4, otherwise it
advances by 1.  The row is modelled as the character list of
`rope.line(row)`. -/

def TAB_SIZE : Nat := 4

/-- `" ".repeat(TAB_SIZE)`. -/
def tabSpaces : List Char := List.replicate TAB_SIZE ' '

/-- The `while i < line.len_chars()` loop of `editor_update_row`, acting on
the characters of the row. -/
def updateRowLoop (cs : List Char) (i : Nat) : List Char :=
  if h : i < cs.length then
    if cs.get ⟨i, h⟩ = '\t' then
      updateRowLoop (cs.take i ++ tabSpaces ++ cs.drop (i + 1)) (i + 4)
    else
      updateRowLoop cs (i + 1)
  else cs
termination_by cs.length - i
decreasing_by
  · simp only [List.length_append, List.length_take, List.length_drop]
    simp [tabSpaces, TAB_SIZE]
    omega
  · omega

/-- `Editor::editor_update_row` on one row. -/
def editor_update_row (cs : List Char) : List Char := updateRowLoop cs 0

/-- Fuel-indexed version of the same loop: `none` means the fuel ran out
before the loop finished.  Used to express termination bounds. -/
def updateRowLoopFuel : Nat → List Char → Nat → Option (List Char)
  | 0, _, _ => none
  | fuel + 1, cs, i =>
    if h : i < cs.length then
      if cs.get ⟨i, h⟩ = '\t' then
        updateRowLoopFuel fuel (cs.take i ++ tabSpaces ++ cs.drop (i + 1)) (i + 4)
      else
        updateRowLoopFuel fuel cs (i + 1)
    else some cs

/-- Specification-side description of tab expansion (§4.3 of the spec):
each tab becomes a fixed run of `TAB_SIZE` spaces, every other character is
kept as is. -/
def specExpandTab (c : Char) : List Char :=
  if c = '\t' then List.replicate TAB_SIZE ' ' else [c]

/-! ## File loading (`Editor::editor_open`)

`self.rope = Rope::from_reader(...)?` either replaces the rope wholesale or
propagates the I/O error before any assignment; on success every row
`0..len_lines` is passed through `editor_update_row` (updating row `i`
leaves all other rows and the line structure unchanged, so the in-place
loop is the per-line map). -/

def editor_open (contents : Except String RopeText) (s : EditorState) :
    Except String Unit × EditorState :=
  match contents with
  | Except.error e => (Except.error e, s)
  | Except.ok text =>
    let s := { s with rope := text }
    (Except.ok (),
      { s with rope := List.intercalate ['\n'] ((ropeLines s.rope).map editor_update_row) })

/-! ## Input decoding (`Editor::editor_read_key`)

The pending input is a byte list; a `read` into a buffer of `n` bytes
returns `min n available` bytes.  With no byte available at all the outer
loop would keep polling, which the model renders as `none`. -/

/-- The `match buf[1]` digit dispatch of the numeric CSI branch. -/
def csiTildeKey (c : Char) (d : Nat) : EditorKey :=
  match d with
  | 0x31 => EditorKey.Home
  | 0x33 => EditorKey.Delete
  | 0x34 => EditorKey.End
  | 0x35 => EditorKey.PageUp
  | 0x36 => EditorKey.PageDown
  | 0x37 => EditorKey.Home
  | 0x38 => EditorKey.End
  | _ => EditorKey.Other c

def editor_read_key (input : List Nat) : Option EditorKey :=
  match input with
  | [] => none
  | b :: rest =>
    let c := Char.ofNat b
    if c = '\x1b' then
      match rest with
      | b1 :: b2 :: rest2 =>
        if b1 = 0x5B ∧ 0x30 ≤ b2 ∧ b2 ≤ 0x39 then
          match rest2 with
          | [] => some (EditorKey.Other c)
          | b3 :: _ =>
            if b3 = 0x7E then some (csiTildeKey c b2)
            else some (EditorKey.Other c)
        else
          match b1, b2 with
          | 0x5B, 0x41 => some EditorKey.ArrowUp
          | 0x5B, 0x42 => some EditorKey.ArrowDown
          | 0x5B, 0x43 => some EditorKey.ArrowRight
          | 0x5B, 0x44 => some EditorKey.ArrowLeft
          | 0x5B, 0x46 => some EditorKey.End
          | 0x5B, 0x48 => some EditorKey.Home
          | 0x4F, 0x46 => some EditorKey.End
          | 0x4F, 0x48 => some EditorKey.Home
          | _, _ => some (EditorKey.Other c)
      | _ => some (EditorKey.Other c)
    else some (EditorKey.Other c)

/-! ## Rendering (`Editor::editor_draw_rows`)

The model collects the characters written to stdout. -/

def eraseInLine : List Char := ['\x1b', '[', 'K']

def crlf : List Char := ['\r', '\n']

def welcomeMessage : List Char := "Kilo editor -- version 0.0.1".toList

/-- The welcome message after the `message = &message[..self.screen_cols]`
truncation. -/
def truncatedWelcome (cols : Nat) : List Char :=
  if welcomeMessage.length > cols then welcomeMessage.take cols else welcomeMessage

/-- The characters written for the welcome-banner row. -/
def welcomeRow (cols : Nat) : List Char :=
  let message := truncatedWelcome cols
  let padding := (cols - message.length) / 2
  if padding > 0 then '~' :: (List.replicate (padding - 1) ' ' ++ message)
  else List.replicate padding ' ' ++ message

/-- The characters written for the text of a row that holds file content. -/
def drawTextRow (s : EditorState) (file_row : Nat) : List Char :=
  let line_slice := get_row s.rope file_row
  let col_len :=
    (line_slice.length - Nat.min s.col_offset line_slice.length).min s.screen_cols
  if col_len > 0 then (line_slice.drop s.col_offset).take col_len else []

/-- The characters written for screen row `y`, between the erase-in-line
prefix and the optional row separator. -/
def drawRowBody (s : EditorState) (y : Nat) : List Char :=
  let file_row := y + s.row_offset
  if len_chars s.rope = 0 ∨ file_row ≥ len_lines s.rope then
    if len_chars s.rope = 0 ∧ y = s.screen_rows / 3 then welcomeRow s.screen_cols
    else ['~']
  else drawTextRow s file_row

/-- All characters written for screen row `y` of `editor_draw_rows`. -/
def drawRow (s : EditorState) (y : Nat) : List Char :=
  (eraseInLine ++ drawRowBody s y) ++ (if y < s.screen_rows - 1 then crlf else [])

/-- `Editor::editor_draw_rows`: everything written to stdout. -/
def editor_draw_rows (s : EditorState) : List Char :=
  ((List.range s.screen_rows).map (drawRow s)).flatten

/-- Specification-side row joiner (§4.5): "append a row separator after
every row except the last". -/
def joinRows : List (List Char) → List Char
  | [] => []
  | [r] => r
  | r :: rs => r ++ crlf ++ joinRows rs

/-! ## Helper lemmas -/

lemma scrollOffset_le (cursor offset extent : Nat) (h : 0 < extent) :
    scrollOffset cursor offset extent ≤ cursor ∧
    cursor < scrollOffset cursor offset extent + extent := by
  simp only [scrollOffset]
  split_ifs <;> omega

lemma length_tabSpaces : tabSpaces.length = 4 := rfl

/-- The scan loop of `editor_update_row`, started at index `i`, leaves the
first `i` characters alone and expands every tab from `i` on. -/
lemma updateRowLoop_eq (n : Nat) : ∀ cs : List Char, ∀ i : Nat, cs.length - i ≤ n →
    updateRowLoop cs i = cs.take i ++ (cs.drop i).flatMap specExpandTab := by
  induction n with
  | zero =>
    intro cs i h
    rw [updateRowLoop, dif_neg (by omega)]
    rw [List.take_of_length_le (by omega), List.drop_eq_nil_of_le (by omega)]
    simp
  | succ n ih =>
    intro cs i h
    rw [updateRowLoop]
    by_cases hlt : i < cs.length
    · rw [dif_pos hlt]
      have hdrop : cs.drop i = cs[i] :: cs.drop (i + 1) := List.drop_eq_getElem_cons hlt
      have htake : (cs.take i).length = i := by
        rw [List.length_take]; omega
      by_cases htab : cs.get ⟨i, hlt⟩ = '\t'
      · rw [if_pos htab]
        rw [List.get_eq_getElem] at htab
        rw [ih _ _ ?len]
        case len =>
          simp only [List.length_append, List.length_take, List.length_drop, length_tabSpaces]
          omega
        have h1 : ((cs.take i ++ (tabSpaces ++ cs.drop (i + 1)))).take (i + 4)
            = cs.take i ++ tabSpaces := by
          rw [show i + 4 = (cs.take i).length + 4 by rw [htake]]
          rw [List.take_append]
          rw [show (4 : Nat) = tabSpaces.length from rfl, List.take_left]
        have h2 : ((cs.take i ++ (tabSpaces ++ cs.drop (i + 1)))).drop (i + 4)
            = cs.drop (i + 1) := by
          rw [show i + 4 = (cs.take i).length + 4 by rw [htake]]
          rw [List.drop_append]
          rw [show (4 : Nat) = tabSpaces.length from rfl, List.drop_left]
        simp only [List.append_assoc]
        rw [h1, h2, hdrop, List.flatMap_cons]
        rw [show specExpandTab cs[i] = tabSpaces from by rw [htab]; rfl]
        simp [List.append_assoc]
      · rw [if_neg htab]
        rw [List.get_eq_getElem] at htab
        have htk : cs.take (i + 1) = cs.take i ++ [cs[i]] := by
          rw [List.take_succ, List.getElem?_eq_getElem hlt]
          rfl
        rw [ih _ _ (by omega), htk, hdrop, List.flatMap_cons]
        rw [show specExpandTab cs[i] = [cs[i]] from by simp [specExpandTab, htab]]
        rw [List.append_assoc]
    · rw [dif_neg hlt]
      rw [List.take_of_length_le (by omega), List.drop_eq_nil_of_le (by omega)]
      simp

/-- Expanding an already-expanded character stream changes nothing: the
output of `specExpandTab` contains no tabs. -/
lemma flatMap_specExpandTab_idem (cs : List Char) :
    (cs.flatMap specExpandTab).flatMap specExpandTab = cs.flatMap specExpandTab := by
  induction cs with
  | nil => rfl
  | cons c cs ih =>
    rw [List.flatMap_cons, List.flatMap_append, ih]
    congr 1
    by_cases h : c = '\t'
    · subst h; rfl
    · simp [specExpandTab, h]

/-- The fuel-indexed loop agrees with the loop whenever the fuel exceeds
`cs.length - i`. -/
lemma updateRowLoopFuel_eq (fuel : Nat) : ∀ cs : List Char, ∀ i : Nat,
    cs.length - i < fuel → updateRowLoopFuel fuel cs i = some (updateRowLoop cs i) := by
  induction fuel with
  | zero => intro cs i h; omega
  | succ fuel ih =>
    intro cs i h
    rw [updateRowLoop]
    show (if h : i < cs.length then _ else some cs) = _
    by_cases hlt : i < cs.length
    · rw [dif_pos hlt, dif_pos hlt]
      by_cases htab : cs.get ⟨i, hlt⟩ = '\t'
      · rw [if_pos htab, if_pos htab]
        apply ih
        simp only [List.length_append, List.length_take, List.length_drop, length_tabSpaces]
        omega
      · rw [if_neg htab, if_neg htab]
        exact ih _ _ (by omega)
    · rw [dif_neg hlt, dif_neg hlt]

lemma joinRows_concat (l : List (List Char)) (a : List Char) :
    joinRows (l ++ [a]) = (l.map (fun r => r ++ crlf)).flatten ++ a := by
  induction l with
  | nil => rfl
  | cons x xs ih =>
    cases xs with
    | nil => simp [joinRows]
    | cons y ys =>
      have hstep : joinRows (x :: (y :: ys) ++ [a]) = x ++ crlf ++ joinRows ((y :: ys) ++ [a]) := by
        rfl
      rw [hstep, ih]
      simp [List.append_assoc]

/-- The flatten-with-trailing-separator shape produced by the renderer's
loop equals the "separator between rows" join. -/
lemma flatten_rows_joinRows (f : Nat → List Char) (n : Nat) :
    ((List.range n).map (fun y => f y ++ if y < n - 1 then crlf else [])).flatten
    = joinRows ((List.range n).map f) := by
  cases n with
  | zero => rfl
  | succ m =>
    rw [List.range_succ]
    have hmap : (List.range m).map (fun y => f y ++ if y < (m + 1) - 1 then crlf else [])
        = (List.range m).map (fun y => f y ++ crlf) := by
      apply List.map_congr_left
      intro y hy
      rw [if_pos]
      simpa using List.mem_range.mp hy
    rw [List.map_append, List.map_cons, List.map_nil, hmap]
    rw [List.map_append, List.map_cons, List.map_nil, joinRows_concat]
    rw [List.flatten_append]
    simp [Function.comp_def]

/-! ## Theorems -/

/-- C5: `editor_update_row` replaces every tab by exactly `TAB_SIZE = 4`
spaces and leaves every other character unchanged (it is the per-character
expansion map), and running it a second time on its own output changes
nothing. -/
theorem update_row_expands_tabs (cs : List Char) :
    editor_update_row cs = cs.flatMap specExpandTab ∧
    editor_update_row (editor_update_row cs) = editor_update_row cs := by
  have h : ∀ ds : List Char, editor_update_row ds = ds.flatMap specExpandTab := by
    intro ds
    have := updateRowLoop_eq ds.length ds 0 (by omega)
    simpa [editor_update_row] using this
  refine ⟨h cs, ?_⟩
  rw [h cs, h (cs.flatMap specExpandTab), flatMap_specExpandTab_idem]

/-- C9: the tab-expansion scan terminates for every line: starting from
index 0 it finishes within `cs.length + 1` loop iterations (each iteration
advances the index past whatever it inserted, so the fuel-indexed loop
never runs out when given that much fuel). -/
theorem update_row_terminates (cs : List Char) :
    updateRowLoopFuel (cs.length + 1) cs 0 = some (editor_update_row cs) :=
  updateRowLoopFuel_eq (cs.length + 1) cs 0 (by omega)

/-- C2: for every screen size (positive, as the spec's `ScreenDimensions`
demands), every cursor position and every starting pair of offsets, a single
call to `editor_scroll` re-establishes
`row_offset ≤ cursor_row < row_offset + screen_rows` and
`col_offset ≤ cursor_col < col_offset + screen_cols`. -/
theorem editor_scroll_keeps_cursor_visible (s : EditorState)
    (hr : 0 < s.screen_rows) (hc : 0 < s.screen_cols) :
    (editor_scroll s).row_offset ≤ (editor_scroll s).cursor_row ∧
    (editor_scroll s).cursor_row < (editor_scroll s).row_offset + (editor_scroll s).screen_rows ∧
    (editor_scroll s).col_offset ≤ (editor_scroll s).cursor_col ∧
    (editor_scroll s).cursor_col < (editor_scroll s).col_offset + (editor_scroll s).screen_cols := by
  have h1 := scrollOffset_le s.cursor_row s.row_offset s.screen_rows hr
  have h2 := scrollOffset_le s.cursor_col s.col_offset s.screen_cols hc
  simp only [editor_scroll]
  exact ⟨h1.1, h1.2, h2.1, h2.2⟩

theorem editor_scroll_keeps_cursor_visible_witness :
    (0 : Nat) < 5 ∧ (0 : Nat) < 10 ∧
    ((editor_scroll ⟨5, 10, 7, 3, 0, 0, []⟩).row_offset ≤
        (editor_scroll ⟨5, 10, 7, 3, 0, 0, []⟩).cursor_row ∧
      (editor_scroll ⟨5, 10, 7, 3, 0, 0, []⟩).cursor_row <
        (editor_scroll ⟨5, 10, 7, 3, 0, 0, []⟩).row_offset +
          (editor_scroll ⟨5, 10, 7, 3, 0, 0, []⟩).screen_rows ∧
      (editor_scroll ⟨5, 10, 7, 3, 0, 0, []⟩).col_offset ≤
        (editor_scroll ⟨5, 10, 7, 3, 0, 0, []⟩).cursor_col ∧
      (editor_scroll ⟨5, 10, 7, 3, 0, 0, []⟩).cursor_col <
        (editor_scroll ⟨5, 10, 7, 3, 0, 0, []⟩).col_offset +
          (editor_scroll ⟨5, 10, 7, 3, 0, 0, []⟩).screen_cols) :=
  ⟨by decide, by decide,
    editor_scroll_keeps_cursor_visible ⟨5, 10, 7, 3, 0, 0, []⟩ (by decide) (by decide)⟩

/-- C7: when the underlying open/read fails, `editor_open` surfaces the
error to the caller and leaves the whole editor state, in particular the
line buffer, unchanged (also when the buffer was still empty). -/
theorem editor_open_error_preserves_buffer (e : String) (s : EditorState) :
    editor_open (Except.error e) s = (Except.error e, s) := rfl

/-- C10: in the welcome-banner branch, the message is truncated to
`screen_cols` before the padding is computed, so the truncated message never
exceeds the screen width and `(screen_cols - message.len()) / 2` cannot
underflow for any screen width. -/
theorem welcome_truncation_prevents_underflow (cols : Nat) :
    (truncatedWelcome cols).length ≤ cols ∧
    (cols - (truncatedWelcome cols).length) + (truncatedWelcome cols).length = cols := by
  have h : (truncatedWelcome cols).length ≤ cols := by
    unfold truncatedWelcome
    split
    · simp [List.length_take]
    · omega
  exact ⟨h, by omega⟩

/-- C1 (amended): on every exit path on which raw mode was entered (normal
Ctrl-Q quit, fatal load failure, mid-loop read or render failure), *provided
the `editor_refresh_screen()?` that `main` runs before restoring succeeds*,
the last terminal-attribute set applied is exactly the originally captured
termios. -/
theorem raw_mode_restored_when_final_refresh_succeeds (env : MainEnv) (orig : Termios)
    (h1 : rawModeEntered env = true) (h2 : env.finalRefreshOk = true) :
    (mainTcsets env orig).getLast? = some orig := by
  unfold rawModeEntered at h1
  rw [Bool.and_eq_true] at h1
  unfold mainTcsets runTcsets
  rw [if_pos h1.1, if_pos h2]
  rw [if_pos h1.2]
  split <;> cases env.loopEnd <;> simp

theorem raw_mode_restored_witness :
    rawModeEntered ⟨true, true, false, true, LoopEnd.quit, true⟩ = true ∧
    (mainTcsets ⟨true, true, false, true, LoopEnd.quit, true⟩ ⟨0, 0, 0, 8, 1, 0⟩).getLast? =
      some ⟨0, 0, 0, 8, 1, 0⟩ :=
  ⟨by decide,
    raw_mode_restored_when_final_refresh_succeeds _ _ (by decide) rfl⟩

/-- C1 (counterexample): a mid-loop render I/O failure after which the final
`editor_refresh_screen()?` in `main` also fails is an exit path on which raw
mode was entered, yet no `tcsetattr` with the original termios ever
happens — the original claim is false as stated. -/
theorem raw_mode_restore_skipped_on_final_refresh_failure :
    rawModeEntered ⟨true, true, false, true, LoopEnd.refreshErr, false⟩ = true ∧
    (mainTcsets ⟨true, true, false, true, LoopEnd.refreshErr, false⟩
        ⟨0, 0, 0, 8, 1, 0⟩).getLast? ≠ some ⟨0, 0, 0, 8, 1, 0⟩ ∧
    (⟨0, 0, 0, 8, 1, 0⟩ : Termios) ∉
      mainTcsets ⟨true, true, false, true, LoopEnd.refreshErr, false⟩ ⟨0, 0, 0, 8, 1, 0⟩ := by
  decide

/-- C3 (counterexample): from the invariant-satisfying state with an empty
buffer (one empty line), `screen_rows = 5` and cursor `(0, 0)`, PageDown
sets `cursor_row = screen_rows = 5`, which exceeds
`max(line_count, screen_rows) - 1 = 4` — the claimed row bound fails. -/
theorem move_cursor_pagedown_breaks_row_bound :
    (0 : Nat) ≤ row_len [] 0 ∧
    (0 : Nat) ≤ max (len_lines []) 5 - 1 ∧
    (editor_move_cursor ⟨5, 10, 0, 0, 0, 0, []⟩ EditorKey.PageDown).cursor_row = 5 ∧
    ¬ ((editor_move_cursor ⟨5, 10, 0, 0, 0, 0, []⟩ EditorKey.PageDown).cursor_row ≤
        max (len_lines (editor_move_cursor ⟨5, 10, 0, 0, 0, 0, []⟩ EditorKey.PageDown).rope)
          (editor_move_cursor ⟨5, 10, 0, 0, 0, 0, []⟩ EditorKey.PageDown).screen_rows - 1) := by
  decide

/-- C3 (amended): after every single cursor movement from a state whose row
lies within `[0, max(line_count, screen_rows + 1) - 1]`, the cursor satisfies
`cursor_col ≤ length(line at cursor_row)` and `cursor_row` again lies within
`[0, max(line_count, screen_rows + 1) - 1]` (PageDown jumps to row
`screen_rows` itself, so the claimed bound `max(line_count, screen_rows) - 1`
must be widened by one screen row). -/
theorem move_cursor_invariant_amended (s : EditorState) (k : EditorKey)
    (hrow : s.cursor_row ≤ max (len_lines s.rope) (s.screen_rows + 1) - 1) :
    (editor_move_cursor s k).cursor_col ≤
      row_len (editor_move_cursor s k).rope (editor_move_cursor s k).cursor_row ∧
    (editor_move_cursor s k).cursor_row ≤
      max (len_lines (editor_move_cursor s k).rope)
        ((editor_move_cursor s k).screen_rows + 1) - 1 := by
  cases k <;>
    simp only [editor_move_cursor, EditorState.current_row_len] <;>
    split_ifs <;>
    simp_all <;>
    omega

theorem move_cursor_invariant_amended_witness :
    (4 : Nat) ≤ max (len_lines ([] : RopeText)) (5 + 1) - 1 ∧
    ((editor_move_cursor ⟨5, 10, 4, 0, 0, 0, []⟩ EditorKey.ArrowDown).cursor_col ≤
        row_len (editor_move_cursor ⟨5, 10, 4, 0, 0, 0, []⟩ EditorKey.ArrowDown).rope
          (editor_move_cursor ⟨5, 10, 4, 0, 0, 0, []⟩ EditorKey.ArrowDown).cursor_row ∧
      (editor_move_cursor ⟨5, 10, 4, 0, 0, 0, []⟩ EditorKey.ArrowDown).cursor_row ≤
        max (len_lines (editor_move_cursor ⟨5, 10, 4, 0, 0, 0, []⟩ EditorKey.ArrowDown).rope)
          ((editor_move_cursor ⟨5, 10, 4, 0, 0, 0, []⟩ EditorKey.ArrowDown).screen_rows + 1) - 1) :=
  ⟨by decide, move_cursor_invariant_amended ⟨5, 10, 4, 0, 0, 0, []⟩ EditorKey.ArrowDown (by decide)⟩

/-- C6: ArrowLeft at column 0 of a row `> 0` moves to the end of the
previous line, and ArrowRight at the end of a line with more rows remaining
moves to column 0 of the next line — the two wraps are exact inverses at
line boundaries. -/
theorem arrow_wrap_at_line_boundaries (s : EditorState) :
    (s.cursor_col = 0 → 0 < s.cursor_row →
      editor_move_cursor s EditorKey.ArrowLeft =
        { s with cursor_row := s.cursor_row - 1,
                 cursor_col := row_len s.rope (s.cursor_row - 1) }) ∧
    (s.cursor_col = row_len s.rope s.cursor_row →
      s.cursor_row < max (len_lines s.rope) s.screen_rows - 1 →
      editor_move_cursor s EditorKey.ArrowRight =
        { s with cursor_row := s.cursor_row + 1, cursor_col := 0 }) := by
  constructor
  · intro h0 hr
    simp [editor_move_cursor, EditorState.current_row_len, h0, hr]
  · intro hcol hr
    simp [editor_move_cursor, EditorState.current_row_len, hcol, hr]

theorem arrow_wrap_at_line_boundaries_witness :
    ((⟨10, 10, 2, 0, 0, 0,
        ['a', 'a', 'a', 'a', '\n', 'b', 'b', 'b', 'b', 'b', '\n', 'c', 'c']⟩ :
          EditorState).cursor_col = 0 ∧
      editor_move_cursor
          ⟨10, 10, 2, 0, 0, 0, ['a', 'a', 'a', 'a', '\n', 'b', 'b', 'b', 'b', 'b', '\n', 'c', 'c']⟩
          EditorKey.ArrowLeft =
        ⟨10, 10, 1, 5, 0, 0, ['a', 'a', 'a', 'a', '\n', 'b', 'b', 'b', 'b', 'b', '\n', 'c', 'c']⟩) ∧
    ((⟨10, 10, 1, 5, 0, 0,
        ['a', 'a', 'a', 'a', '\n', 'b', 'b', 'b', 'b', 'b', '\n', 'c', 'c']⟩ :
          EditorState).cursor_col =
        row_len ['a', 'a', 'a', 'a', '\n', 'b', 'b', 'b', 'b', 'b', '\n', 'c', 'c'] 1 ∧
      editor_move_cursor
          ⟨10, 10, 1, 5, 0, 0, ['a', 'a', 'a', 'a', '\n', 'b', 'b', 'b', 'b', 'b', '\n', 'c', 'c']⟩
          EditorKey.ArrowRight =
        ⟨10, 10, 2, 0, 0, 0, ['a', 'a', 'a', 'a', '\n', 'b', 'b', 'b', 'b', 'b', '\n', 'c', 'c']⟩) := by
  constructor
  · refine ⟨rfl, ?_⟩
    rw [(arrow_wrap_at_line_boundaries _).1 rfl (by decide)]
    decide
  · refine ⟨by decide, ?_⟩
    rw [(arrow_wrap_at_line_boundaries _).2 (by decide) (by decide)]

/-- C4: the decoder maps `ESC [ A` to ArrowUp, `ESC [ 3 ~` to Delete, a
lone `ESC` (no further bytes before the read timeout) to `Other(ESC)`; for
a numeric CSI sequence `ESC [ digit ~` the digit maps 1/7 to Home, 3 to
Delete, 4/8 to End, 5 to PageUp, 6 to PageDown and any other digit to
`Other(ESC)`; a missing `~` terminator (no byte, or a non-`~` byte) also
yields `Other(ESC)`. -/
theorem read_key_decoding :
    editor_read_key [0x1B, 0x5B, 0x41] = some EditorKey.ArrowUp ∧
    editor_read_key [0x1B, 0x5B, 0x33, 0x7E] = some EditorKey.Delete ∧
    editor_read_key [0x1B] = some (EditorKey.Other (Char.ofNat 0x1B)) ∧
    (∀ d : Nat, 0x30 ≤ d → d ≤ 0x39 →
      editor_read_key [0x1B, 0x5B, d, 0x7E] =
        some (if d = 0x31 ∨ d = 0x37 then EditorKey.Home
          else if d = 0x33 then EditorKey.Delete
          else if d = 0x34 ∨ d = 0x38 then EditorKey.End
          else if d = 0x35 then EditorKey.PageUp
          else if d = 0x36 then EditorKey.PageDown
          else EditorKey.Other (Char.ofNat 0x1B))) ∧
    (∀ d : Nat, 0x30 ≤ d → d ≤ 0x39 →
      editor_read_key [0x1B, 0x5B, d] = some (EditorKey.Other (Char.ofNat 0x1B))) ∧
    (∀ d t : Nat, 0x30 ≤ d → d ≤ 0x39 → t ≠ 0x7E →
      editor_read_key [0x1B, 0x5B, d, t] = some (EditorKey.Other (Char.ofNat 0x1B))) := by
  refine ⟨by decide, by decide, by decide, ?_, ?_, ?_⟩
  · intro d h1 h2
    interval_cases d <;> decide
  · intro d h1 h2
    interval_cases d <;> decide
  · intro d t h1 h2 ht
    interval_cases d <;> simp [editor_read_key, csiTildeKey, ht]

theorem read_key_decoding_witness :
    (0x30 : Nat) ≤ 0x35 ∧ (0x35 : Nat) ≤ 0x39 ∧
    editor_read_key [0x1B, 0x5B, 0x35, 0x7E] = some EditorKey.PageUp := by
  refine ⟨by decide, by decide, ?_⟩
  rw [read_key_decoding.2.2.2.1 0x35 (by decide) (by decide)]
  decide

/-- C8: rendering a screen of height `H` and width `W` with an empty buffer
draws exactly `H` rows — each the erase-in-line control followed by the
marker `~`, except row `H / 3`, which shows the welcome banner (truncated
to `W` and centered) — and the `\r\n` separator is placed after every row
except the last. -/
theorem draw_rows_empty_buffer (H W cr cc ro co : Nat) :
    editor_draw_rows ⟨H, W, cr, cc, ro, co, []⟩ =
      joinRows ((List.range H).map
        (fun y => eraseInLine ++ (if y = H / 3 then welcomeRow W else ['~']))) := by
  unfold editor_draw_rows
  have hmap : (List.range H).map (drawRow ⟨H, W, cr, cc, ro, co, []⟩)
      = (List.range H).map (fun y =>
          (eraseInLine ++ (if y = H / 3 then welcomeRow W else ['~'])) ++
            (if y < H - 1 then crlf else [])) := by
    apply List.map_congr_left
    intro y _
    unfold drawRow drawRowBody
    simp [len_chars]
  rw [hmap, flatten_rows_joinRows]

end Kilo
